import Mathlib

/-!
Shallow embedding of the trade-session engine (src/trade_session.rs) and the
swap-transaction builder (src/transaction_service.rs) of the trade-with-me
backend, together with proofs of the specification claims about them.

Modelling conventions:
* Rust HashMap values are modelled as association lists; HashMap equality is
  extensional, so map-valued results are compared through lookupKV.
* rust_decimal Decimal is modelled as ℚ: the operations the code uses
  (addition, subtraction, min, order comparisons, equality with zero) are
  exact on Decimal and agree with the rational operations.
* Uuid session ids are modelled as Nat; wallet addresses and token mints stay
  Strings, compared byte-wise exactly as in the source.
* The anyhow error messages of the source are mapped to the error kinds of
  the spec (InvalidPhase, TooManyParties, UnknownUserInSession,
  UnknownSession, InvalidParties, EmptyTrade, BadAddress, Rpc).
* The websocket client map of a TradeSession does not influence any of the
  state-machine operations, so a session is represented by its TradeState.
-/

/-- Lookup in an association list, mirroring HashMap::get. -/
def lookupKV {κ α : Type} [DecidableEq κ] : List (κ × α) → κ → Option α
  | [], _ => none
  | (k, v) :: rest, s => if k = s then some v else lookupKV rest s

/-- Insert-or-replace in an association list, mirroring HashMap::insert /
entry().or_insert(). -/
def setKV {κ α : Type} [DecidableEq κ] : List (κ × α) → κ → α → List (κ × α)
  | [], k, v => [(k, v)]
  | (k2, w) :: rest, k, v =>
    if k2 = k then (k, v) :: rest else (k2, w) :: setKV rest k v

/-- Remove a key from an association list, mirroring HashMap::remove. -/
def eraseKV {κ α : Type} [DecidableEq κ] : List (κ × α) → κ → List (κ × α)
  | [], _ => []
  | (k2, w) :: rest, k => if k2 = k then rest else (k2, w) :: eraseKV rest k

/-- Overwrite the value at a key if present (HashMap::get_mut followed by an
assignment); a missing key leaves the list unchanged. -/
def modifyKV {κ α : Type} [DecidableEq κ] (l : List (κ × α)) (k : κ) (v : α) :
    List (κ × α) :=
  l.map (fun p => if p.1 = k then (p.1, v) else p)

/-- The keys of an association list. -/
def keysOf {κ α : Type} (l : List (κ × α)) : List κ :=
  l.map Prod.fst

/-- TradeStatus from src/trade_session.rs; Trading is the Default variant. -/
inductive TradeStatus
  | Trading
  | OneUserAccepted
  | Accepted
  | TransactionCreated
  | OneUserSigned
  | TransactionSent
  deriving DecidableEq

/-- TradeState from src/trade_session.rs: per-user offer bundles, the user in
the accepted-first position, and the phase. -/
structure TradeState where
  items : List (String × List (String × ℚ))
  user_acted : Option String
  status : TradeStatus
  deriving DecidableEq

instance : Inhabited TradeState :=
  ⟨⟨[], none, TradeStatus.Trading⟩⟩

/-- The session registry held by SharedSessions (ws_clients omitted, see
module docstring). -/
abbrev Registry := List (Nat × TradeState)

/-- The token-amount cache contents: user address to (mint to amount). -/
abbrev Cache := List (String × List (String × ℚ))

/-- Error kinds of the engine operations (spec section 7), mapped from the
anyhow error messages of the source. -/
inductive TradeError
  | InvalidPhase
  | TooManyParties
  | UnknownUserInSession
  | UnknownSession
  deriving DecidableEq

instance : DecidableEq (Except TradeError Unit) := fun a b =>
  match a, b with
  | Except.error e1, Except.error e2 =>
    if h : e1 = e2 then Decidable.isTrue (by rw [h])
    else Decidable.isFalse (fun hq => h (Except.error.inj hq))
  | Except.error e1, Except.ok v => Decidable.isFalse (fun hq => Except.noConfusion hq)
  | Except.ok v, Except.error e2 => Decidable.isFalse (fun hq => Except.noConfusion hq)
  | Except.ok v1, Except.ok v2 => Decidable.isTrue (by cases v1; cases v2; rfl)

/-- The available ceiling computed in add_tokens_offer: the cached amount for
(user, mint), with 0 both on a missing user entry and on a missing mint. -/
def availableTokens (cache : Cache) (user_address : String) (token_mint : String) : ℚ :=
  match lookupKV cache user_address with
  | none => 0
  | some amounts =>
    match lookupKV amounts token_mint with
    | none => 0
    | some amount => amount

/-- SharedSessions::add_client restricted to its effect on the state registry:
entry(session_id).or_default() lazily creates a session with default state. -/
def add_client (sessions : Registry) (session_id : Nat) : Registry :=
  match lookupKV sessions session_id with
  | some _ => sessions
  | none => setKV sessions session_id default

/-- SharedSessions::add_tokens_offer. Returns the call result together with
the registry after the call (the registry is unchanged on every error). -/
def add_tokens_offer (cache : Cache) (sessions : Registry) (session_id : Nat)
    (user_address : String) (token_mint : String) (token_amount : ℚ) :
    Except TradeError Unit × Registry :=
  if token_amount ≤ 0 then (Except.ok (), sessions)
  else
    match lookupKV sessions session_id with
    | none => (Except.error TradeError.UnknownSession, sessions)
    | some st =>
      if st.status = TradeStatus.Trading ∨ st.status = TradeStatus.OneUserAccepted then
        let available := availableTokens cache user_address token_mint
        match lookupKV st.items user_address with
        | some bundle =>
          let newBundle :=
            match lookupKV bundle token_mint with
            | some existing =>
              setKV bundle token_mint (min (existing + token_amount) available)
            | none => setKV bundle token_mint (min token_amount available)
          (Except.ok (),
            setKV sessions session_id
              ⟨setKV st.items user_address newBundle, none, TradeStatus.Trading⟩)
        | none =>
          if st.items.length = 2 then (Except.error TradeError.TooManyParties, sessions)
          else
            (Except.ok (),
              setKV sessions session_id
                ⟨setKV st.items user_address [(token_mint, min token_amount available)],
                  none, TradeStatus.Trading⟩)
      else (Except.error TradeError.InvalidPhase, sessions)

/-- SharedSessions::withdraw_tokens. A missing session falls through to Ok in
the source (if-let with no else before the final Ok(())). -/
def withdraw_tokens (sessions : Registry) (session_id : Nat)
    (user_address : String) (token_mint : String) (token_amount : ℚ) :
    Except TradeError Unit × Registry :=
  if token_amount ≤ 0 then (Except.ok (), sessions)
  else
    match lookupKV sessions session_id with
    | none => (Except.ok (), sessions)
    | some st =>
      if st.status = TradeStatus.Trading ∨ st.status = TradeStatus.OneUserAccepted then
        match lookupKV st.items user_address with
        | some bundle =>
          let b1 :=
            match lookupKV bundle token_mint with
            | some existing =>
              setKV bundle token_mint
                (if existing ≤ token_amount then 0 else existing - token_amount)
            | none => bundle
          let b2 :=
            match lookupKV b1 token_mint with
            | some a => if a = 0 then eraseKV b1 token_mint else b1
            | none => b1
          (Except.ok (),
            setKV sessions session_id
              ⟨setKV st.items user_address b2, none, TradeStatus.Trading⟩)
        | none => (Except.error TradeError.UnknownUserInSession, sessions)
      else (Except.error TradeError.InvalidPhase, sessions)

/-- SharedSessions::accept_trade. -/
def accept_trade (sessions : Registry) (session_id : Nat) (user_address : String) :
    Except TradeError Unit × Registry :=
  match lookupKV sessions session_id with
  | none => (Except.error TradeError.UnknownSession, sessions)
  | some st =>
    if st.status = TradeStatus.Trading ∨ st.status = TradeStatus.OneUserAccepted then
      match st.user_acted with
      | some user_accepted =>
        if user_accepted = user_address then (Except.ok (), sessions)
        else
          (Except.ok (), setKV sessions session_id ⟨st.items, none, TradeStatus.Accepted⟩)
      | none =>
        (Except.ok (),
          setKV sessions session_id ⟨st.items, some user_address, TradeStatus.OneUserAccepted⟩)
    else (Except.error TradeError.InvalidPhase, sessions)

/-- One engine step on the shared registry, by any of the operations that a
connected client can trigger. -/
inductive Step (cache : Cache) : Registry → Registry → Prop
  | client (s : Registry) (sid : Nat) : Step cache s (add_client s sid)
  | offer (s : Registry) (sid : Nat) (u m : String) (a : ℚ) :
      Step cache s (add_tokens_offer cache s sid u m a).2
  | withdraw (s : Registry) (sid : Nat) (u m : String) (a : ℚ) :
      Step cache s (withdraw_tokens s sid u m a).2
  | accept (s : Registry) (sid : Nat) (u : String) :
      Step cache s (accept_trade s sid u).2

/-- Registries reachable from the empty registry a fresh SharedSessions starts
with, under a fixed cache content. -/
def Reachable (cache : Cache) (s : Registry) : Prop :=
  Relation.ReflTransGen (Step cache) [] s

/-- The body of the per-token cancellation loop of cancel_out_trade_tokens:
iterate over the first offer map; for each token also present in the second
map, replace the pair of amounts (a, b) by (0, b - a) when b > a, by
(a - b, 0) when b < a, and by (0, 0) when they are equal. -/
def cancelLoop : List (String × ℚ) → List (String × ℚ) →
    List (String × ℚ) × List (String × ℚ)
  | [], o2 => ([], o2)
  | (t, a) :: rest, o2 =>
    match lookupKV o2 t with
    | some b =>
      let a2 : ℚ := if a < b then 0 else if b < a then a - b else 0
      let b2 : ℚ := if a < b then b - a else if b < a then 0 else 0
      let r := cancelLoop rest (modifyKV o2 t b2)
      ((t, a2) :: r.1, r.2)
    | none =>
      let r := cancelLoop rest o2
      ((t, a) :: r.1, r.2)

/-- The retain(|_, amount| *amount > 0) pass of cancel_out_trade_tokens. -/
def retainPos (l : List (String × ℚ)) : List (String × ℚ) :=
  l.filter (fun p => 0 < p.2)

/-- cancel_out_trade_tokens from src/transaction_service.rs: cancel mutually
offered mints, then drop all non-positive entries from both maps. -/
def cancel_out_trade_tokens (user1_offers user2_offers : List (String × ℚ)) :
    List (String × ℚ) × List (String × ℚ) :=
  let r := cancelLoop user1_offers user2_offers
  (retainPos r.1, retainPos r.2)

/-- Error kinds of TransactionService::create_transaction (spec section 7). -/
inductive TxError
  | InvalidParties
  | EmptyTrade
  | BadAddress
  | Rpc
  deriving DecidableEq

/-- solana_sdk AccountMeta restricted to the fields the builder sets. -/
structure AccountMeta where
  pubkey : Nat
  is_signer : Bool
  is_writable : Bool
  deriving DecidableEq

/-- The unsigned transaction assembled by create_transaction: one instruction
(program id, accounts, amount payload), the fee payer and the blockhash.
Decimal::serialize is kept abstract: the payload records the amounts in the
order they are serialized. -/
structure BuiltTransaction where
  program_id : Nat
  accounts : List AccountMeta
  data : List ℚ
  fee_payer : Nat
  recent_blockhash : Nat
  deriving DecidableEq

/-- One iteration batch of the ATA-building loops of create_transaction: for
every (token, amount) of a residue map, parse the sender, receiver and token
addresses (any failure is the ? on Pubkey::from_str, kind BadAddress) and
record (sender_ata, receiver_ata, token_mint, amount). -/
def buildEntries (parsePk : String → Option Nat) (ata : Nat → Nat → Nat)
    (sender receiver : String) :
    List (String × ℚ) → Except TxError (List (Nat × Nat × Nat × ℚ))
  | [] => Except.ok []
  | (token, amount) :: rest =>
    match parsePk sender, parsePk receiver, parsePk token with
    | some us, some ur, some tk =>
      match buildEntries parsePk ata sender receiver rest with
      | Except.ok es => Except.ok ((ata us tk, ata ur tk, tk, amount) :: es)
      | Except.error e => Except.error e
    | _, _, _ => Except.error TxError.BadAddress

/-- TransactionService::create_transaction. The chain context is abstracted
by its three capabilities: address parsing (Pubkey::from_str), the associated
token address derivation, the program id, and the latest-blockhash fetch
(none models an rpc failure). The two users are taken in the iteration order
of the items map, which the embedding fixes to list order. -/
def create_transaction (parsePk : String → Option Nat) (ata : Nat → Nat → Nat)
    (programId : Nat) (blockhash : Option Nat)
    (items : List (String × List (String × ℚ))) : Except TxError BuiltTransaction :=
  if items.length ≠ 2 then Except.error TxError.InvalidParties
  else
    match items with
    | (user1, user1_offers) :: (user2, user2_offers) :: _ =>
      let r := cancel_out_trade_tokens user1_offers user2_offers
      if r.1.isEmpty ∧ r.2.isEmpty then Except.error TxError.EmptyTrade
      else
        match buildEntries parsePk ata user1 user2 r.1 with
        | Except.error e => Except.error e
        | Except.ok entries1 =>
          match buildEntries parsePk ata user2 user1 r.2 with
          | Except.error e => Except.error e
          | Except.ok entries2 =>
            match parsePk user1, parsePk user2 with
            | some u1, some u2 =>
              match blockhash with
              | none => Except.error TxError.Rpc
              | some h =>
                let entries := entries1 ++ entries2
                let sender_atas := entries.map (fun e => e.1)
                let receiver_atas := entries.map (fun e => e.2.1)
                let token_mints := entries.map (fun e => e.2.2.1)
                let amounts := entries.map (fun e => e.2.2.2)
                Except.ok
                  { program_id := programId
                    accounts :=
                      [⟨u1, true, true⟩, ⟨u2, true, true⟩] ++
                        token_mints.map (fun k => ⟨k, false, false⟩) ++
                        (sender_atas ++ receiver_atas).map (fun k => ⟨k, false, true⟩)
                    data := amounts
                    fee_payer := u1
                    recent_blockhash := h }
            | _, _ => Except.error TxError.BadAddress
    | _ => Except.error TxError.InvalidParties

theorem lookupKV_cons {κ α : Type} [DecidableEq κ] (k2 : κ) (w : α) (rest : List (κ × α))
    (s : κ) : lookupKV ((k2, w) :: rest) s = if k2 = s then some w else lookupKV rest s :=
  rfl

theorem setKV_cons {κ α : Type} [DecidableEq κ] (k2 : κ) (w : α) (rest : List (κ × α))
    (k : κ) (v : α) :
    setKV ((k2, w) :: rest) k v =
      if k2 = k then (k, v) :: rest else (k2, w) :: setKV rest k v :=
  rfl

theorem eraseKV_cons {κ α : Type} [DecidableEq κ] (k2 : κ) (w : α) (rest : List (κ × α))
    (k : κ) :
    eraseKV ((k2, w) :: rest) k = if k2 = k then rest else (k2, w) :: eraseKV rest k :=
  rfl

theorem lookupKV_setKV_self {κ α : Type} [DecidableEq κ] (l : List (κ × α)) (k : κ) (v : α) :
    lookupKV (setKV l k v) k = some v := by
  induction l with
  | nil => simp [setKV, lookupKV]
  | cons p rest ih =>
    obtain ⟨k2, w⟩ := p
    by_cases h : k2 = k
    · simp [setKV, h, lookupKV]
    · simp [setKV, h, lookupKV, ih]

theorem lookupKV_setKV_ne {κ α : Type} [DecidableEq κ] (l : List (κ × α)) (k : κ) (v : α)
    (s : κ) (h : k ≠ s) : lookupKV (setKV l k v) s = lookupKV l s := by
  induction l with
  | nil => simp [setKV, lookupKV, h]
  | cons p rest ih =>
    obtain ⟨k2, w⟩ := p
    by_cases h2 : k2 = k
    · subst h2; simp [setKV, lookupKV, h]
    · simp [setKV, h2, lookupKV, ih]

theorem setKV_lookup_self {κ α : Type} [DecidableEq κ] {l : List (κ × α)} {k : κ} {v : α}
    (h : lookupKV l k = some v) : setKV l k v = l := by
  induction l with
  | nil => simp [lookupKV] at h
  | cons p rest ih =>
    obtain ⟨k2, w⟩ := p
    by_cases h2 : k2 = k
    · subst h2
      rw [lookupKV_cons, if_pos rfl, Option.some.injEq] at h
      rw [setKV_cons, if_pos rfl, h]
    · rw [lookupKV_cons, if_neg h2] at h
      rw [setKV_cons, if_neg h2, ih h]

theorem mem_of_lookupKV {κ α : Type} [DecidableEq κ] {l : List (κ × α)} {k : κ} {v : α}
    (h : lookupKV l k = some v) : (k, v) ∈ l := by
  induction l with
  | nil => simp [lookupKV] at h
  | cons p rest ih =>
    obtain ⟨k2, w⟩ := p
    by_cases h2 : k2 = k
    · subst h2
      rw [lookupKV_cons, if_pos rfl, Option.some.injEq] at h
      subst h
      exact List.mem_cons_self _ _
    · rw [lookupKV_cons, if_neg h2] at h
      exact List.mem_cons_of_mem _ (ih h)

theorem mem_setKV {κ α : Type} [DecidableEq κ] {l : List (κ × α)} {k : κ} {v : α}
    {x : κ × α} (h : x ∈ setKV l k v) : x = (k, v) ∨ x ∈ l := by
  induction l with
  | nil =>
    simp only [setKV, List.mem_singleton] at h
    exact Or.inl h
  | cons p rest ih =>
    obtain ⟨k2, w⟩ := p
    by_cases h2 : k2 = k
    · rw [setKV, if_pos h2] at h
      rcases List.mem_cons.mp h with h | h
      · exact Or.inl h
      · exact Or.inr (List.mem_cons_of_mem _ h)
    · rw [setKV, if_neg h2] at h
      rcases List.mem_cons.mp h with h | h
      · exact Or.inr (h ▸ List.mem_cons_self _ _)
      · rcases ih h with h | h
        · exact Or.inl h
        · exact Or.inr (List.mem_cons_of_mem _ h)

theorem mem_eraseKV {κ α : Type} [DecidableEq κ] {l : List (κ × α)} {k : κ}
    {x : κ × α} (h : x ∈ eraseKV l k) : x ∈ l := by
  induction l with
  | nil => exact absurd h (List.not_mem_nil x)
  | cons p rest ih =>
    obtain ⟨k2, w⟩ := p
    by_cases h2 : k2 = k
    · rw [eraseKV, if_pos h2] at h
      exact List.mem_cons_of_mem _ h
    · rw [eraseKV, if_neg h2] at h
      rcases List.mem_cons.mp h with h | h
      · exact h ▸ List.mem_cons_self _ _
      · exact List.mem_cons_of_mem _ (ih h)

theorem length_setKV_of_lookupKV_some {κ α : Type} [DecidableEq κ] {l : List (κ × α)}
    {k : κ} {v : α} (w : α) (h : lookupKV l k = some v) :
    (setKV l k w).length = l.length := by
  induction l with
  | nil => simp [lookupKV] at h
  | cons p rest ih =>
    obtain ⟨k2, u⟩ := p
    by_cases h2 : k2 = k
    · simp [setKV, h2]
    · simp only [lookupKV, if_neg h2] at h
      simp [setKV, h2, ih h]

theorem length_setKV_of_lookupKV_none {κ α : Type} [DecidableEq κ] {l : List (κ × α)}
    {k : κ} (w : α) (h : lookupKV l k = none) :
    (setKV l k w).length = l.length + 1 := by
  induction l with
  | nil => simp [setKV]
  | cons p rest ih =>
    obtain ⟨k2, u⟩ := p
    by_cases h2 : k2 = k
    · simp [lookupKV, h2] at h
    · simp only [lookupKV, if_neg h2] at h
      simp [setKV, h2, ih h]

theorem lookupKV_eq_none_of_not_mem_keys {κ α : Type} [DecidableEq κ] {l : List (κ × α)}
    {k : κ} (h : k ∉ keysOf l) : lookupKV l k = none := by
  induction l with
  | nil => rfl
  | cons p rest ih =>
    obtain ⟨k2, w⟩ := p
    simp only [keysOf, List.map_cons, List.mem_cons] at h
    push_neg at h
    rw [lookupKV_cons, if_neg (fun e => h.1 e.symm)]
    exact ih (by simpa [keysOf] using h.2)

theorem modifyKV_cons {κ α : Type} [DecidableEq κ] (k2 : κ) (w : α) (rest : List (κ × α))
    (k : κ) (v : α) :
    modifyKV ((k2, w) :: rest) k v =
      (if k2 = k then (k2, v) else (k2, w)) :: modifyKV rest k v :=
  rfl

theorem lookupKV_modifyKV_self {κ α : Type} [DecidableEq κ] (l : List (κ × α)) (k : κ)
    (v : α) : lookupKV (modifyKV l k v) k = (lookupKV l k).map (fun _ => v) := by
  induction l with
  | nil => rfl
  | cons p rest ih =>
    obtain ⟨k2, w⟩ := p
    by_cases h2 : k2 = k
    · subst h2
      rw [modifyKV_cons, if_pos rfl, lookupKV_cons, if_pos rfl, lookupKV_cons, if_pos rfl]
      rfl
    · rw [modifyKV_cons, if_neg h2, lookupKV_cons, if_neg h2, lookupKV_cons, if_neg h2]
      exact ih

theorem lookupKV_modifyKV_ne {κ α : Type} [DecidableEq κ] (l : List (κ × α)) (k : κ)
    (v : α) (s : κ) (h : k ≠ s) : lookupKV (modifyKV l k v) s = lookupKV l s := by
  induction l with
  | nil => rfl
  | cons p rest ih =>
    obtain ⟨k2, w⟩ := p
    by_cases h2 : k2 = k
    · subst h2
      rw [modifyKV_cons, if_pos rfl, lookupKV_cons, if_neg h, lookupKV_cons, if_neg h]
      exact ih
    · rw [modifyKV_cons, if_neg h2, lookupKV_cons, lookupKV_cons]
      by_cases h3 : k2 = s
      · rw [if_pos h3, if_pos h3]
      · rw [if_neg h3, if_neg h3]
        exact ih

theorem keysOf_modifyKV {κ α : Type} [DecidableEq κ] (l : List (κ × α)) (k : κ) (v : α) :
    keysOf (modifyKV l k v) = keysOf l := by
  induction l with
  | nil => rfl
  | cons p rest ih =>
    obtain ⟨k2, w⟩ := p
    by_cases h2 : k2 = k
    · simp only [modifyKV, keysOf, List.map_cons, if_pos h2] at ih ⊢
      rw [ih]
    · simp only [modifyKV, keysOf, List.map_cons, if_neg h2] at ih ⊢
      rw [ih]

theorem keysOf_cons {κ α : Type} (k : κ) (v : α) (rest : List (κ × α)) :
    keysOf ((k, v) :: rest) = k :: keysOf rest :=
  rfl

theorem keysOf_cancelLoop_fst (o1 : List (String × ℚ)) (o2 : List (String × ℚ)) :
    keysOf (cancelLoop o1 o2).1 = keysOf o1 := by
  induction o1 generalizing o2 with
  | nil => rfl
  | cons p rest ih =>
    obtain ⟨t0, a⟩ := p
    cases h2 : lookupKV o2 t0 with
    | some b => simp only [cancelLoop, h2, keysOf_cons, ih]
    | none => simp only [cancelLoop, h2, keysOf_cons, ih]

theorem keysOf_cancelLoop_snd (o1 : List (String × ℚ)) (o2 : List (String × ℚ)) :
    keysOf (cancelLoop o1 o2).2 = keysOf o2 := by
  induction o1 generalizing o2 with
  | nil => rfl
  | cons p rest ih =>
    obtain ⟨t0, a⟩ := p
    cases h2 : lookupKV o2 t0 with
    | some b => simp only [cancelLoop, h2, ih, keysOf_modifyKV]
    | none => simp only [cancelLoop, h2, ih]

theorem lookupKV_cancelLoop_fst (o1 : List (String × ℚ)) (o2 : List (String × ℚ))
    (t : String) :
    lookupKV (cancelLoop o1 o2).1 t =
      match lookupKV o1 t, lookupKV o2 t with
      | some a, some b => some (if a < b then 0 else if b < a then a - b else 0)
      | some a, none => some a
      | none, _ => none := by
  induction o1 generalizing o2 with
  | nil => cases lookupKV o2 t <;> rfl
  | cons p rest ih =>
    obtain ⟨t0, a⟩ := p
    cases h2 : lookupKV o2 t0 with
    | some b =>
      simp only [cancelLoop, h2]
      rw [lookupKV_cons, lookupKV_cons]
      by_cases ht : t0 = t
      · subst ht
        rw [if_pos rfl, if_pos rfl, h2]
      · rw [if_neg ht, if_neg ht, ih, lookupKV_modifyKV_ne _ _ _ _ ht]
    | none =>
      simp only [cancelLoop, h2]
      rw [lookupKV_cons, lookupKV_cons]
      by_cases ht : t0 = t
      · subst ht
        rw [if_pos rfl, if_pos rfl, h2]
      · rw [if_neg ht, if_neg ht, ih]

theorem lookupKV_cancelLoop_snd (o1 : List (String × ℚ)) (o2 : List (String × ℚ))
    (t : String) (hnd : (keysOf o1).Nodup) :
    lookupKV (cancelLoop o1 o2).2 t =
      match lookupKV o1 t, lookupKV o2 t with
      | some a, some b => some (if a < b then b - a else 0)
      | none, some b => some b
      | _, none => none := by
  induction o1 generalizing o2 with
  | nil => cases h : lookupKV o2 t <;> simp [cancelLoop, h, lookupKV]
  | cons p rest ih =>
    obtain ⟨t0, a⟩ := p
    rw [keysOf_cons, List.nodup_cons] at hnd
    cases h2 : lookupKV o2 t0 with
    | some b =>
      simp only [cancelLoop, h2]
      rw [ih _ hnd.2, lookupKV_cons]
      by_cases ht : t0 = t
      · subst ht
        rw [if_pos rfl, lookupKV_eq_none_of_not_mem_keys hnd.1, lookupKV_modifyKV_self, h2]
        simp only [Option.map_some']
        split_ifs <;> rfl
      · rw [if_neg ht, lookupKV_modifyKV_ne _ _ _ _ ht]
    | none =>
      simp only [cancelLoop, h2]
      rw [ih _ hnd.2, lookupKV_cons]
      by_cases ht : t0 = t
      · subst ht
        rw [if_pos rfl, h2]
        cases lookupKV rest t0 <;> rfl
      · rw [if_neg ht]

theorem lookupKV_retainPos (l : List (String × ℚ)) (hnd : (keysOf l).Nodup) (t : String) :
    lookupKV (retainPos l) t =
      match lookupKV l t with
      | some a => if 0 < a then some a else none
      | none => none := by
  induction l with
  | nil => rfl
  | cons p rest ih =>
    obtain ⟨k, v⟩ := p
    rw [keysOf_cons, List.nodup_cons] at hnd
    by_cases hk : k = t
    · subst hk
      by_cases hv : 0 < v
      · have hr : retainPos ((k, v) :: rest) = (k, v) :: retainPos rest := by
          simp [retainPos, hv]
        rw [hr, lookupKV_cons, if_pos rfl, lookupKV_cons, if_pos rfl]
        simp [hv]
      · have hr : retainPos ((k, v) :: rest) = retainPos rest := by
          simp [retainPos, hv]
        rw [hr, lookupKV_cons, if_pos rfl, ih hnd.2,
          lookupKV_eq_none_of_not_mem_keys hnd.1]
        simp [hv]
    · by_cases hv : 0 < v
      · have hr : retainPos ((k, v) :: rest) = (k, v) :: retainPos rest := by
          simp [retainPos, hv]
        rw [hr, lookupKV_cons, if_neg hk, lookupKV_cons, if_neg hk]
        exact ih hnd.2
      · have hr : retainPos ((k, v) :: rest) = retainPos rest := by
          simp [retainPos, hv]
        rw [hr, lookupKV_cons, if_neg hk]
        exact ih hnd.2

/-- The pointwise content of one component of cancel_out_trade_tokens, as a
function of the two looked-up amounts for a token. -/
def cancelFst : Option ℚ → Option ℚ → Option ℚ
  | some a, some b => if b < a then some (a - b) else none
  | some a, none => if 0 < a then some a else none
  | none, _ => none

theorem keysOf_retainPos_sublist (l : List (String × ℚ)) :
    (keysOf (retainPos l)).Sublist (keysOf l) :=
  List.Sublist.map Prod.fst (List.filter_sublist l)

theorem nodup_keys_cancel_fst {o1 o2 : List (String × ℚ)}
    (h1 : (keysOf o1).Nodup) :
    (keysOf (cancel_out_trade_tokens o1 o2).1).Nodup := by
  have hs := keysOf_retainPos_sublist (cancelLoop o1 o2).1
  rw [keysOf_cancelLoop_fst] at hs
  exact List.Nodup.sublist hs h1

theorem nodup_keys_cancel_snd {o1 o2 : List (String × ℚ)}
    (h2 : (keysOf o2).Nodup) :
    (keysOf (cancel_out_trade_tokens o1 o2).2).Nodup := by
  have hs := keysOf_retainPos_sublist (cancelLoop o1 o2).2
  rw [keysOf_cancelLoop_snd] at hs
  exact List.Nodup.sublist hs h2

theorem lookupKV_cancel_fst (o1 o2 : List (String × ℚ))
    (h1 : (keysOf o1).Nodup) (t : String) :
    lookupKV (cancel_out_trade_tokens o1 o2).1 t =
      cancelFst (lookupKV o1 t) (lookupKV o2 t) := by
  have hnd : (keysOf (cancelLoop o1 o2).1).Nodup := by
    rw [keysOf_cancelLoop_fst]; exact h1
  show lookupKV (retainPos (cancelLoop o1 o2).1) t = _
  rw [lookupKV_retainPos _ hnd, lookupKV_cancelLoop_fst]
  rcases lookupKV o1 t with _ | a <;> rcases lookupKV o2 t with _ | b
  · rfl
  · rfl
  · by_cases h : 0 < a <;> simp [cancelFst, h]
  · rcases lt_trichotomy a b with h | h | h
    · simp [cancelFst, h, lt_asymm h]
    · subst h
      simp [cancelFst, lt_irrefl]
    · simp [cancelFst, h, lt_asymm h, sub_pos.mpr h]

theorem lookupKV_cancel_snd (o1 o2 : List (String × ℚ))
    (h1 : (keysOf o1).Nodup) (h2 : (keysOf o2).Nodup) (t : String) :
    lookupKV (cancel_out_trade_tokens o1 o2).2 t =
      cancelFst (lookupKV o2 t) (lookupKV o1 t) := by
  have hnd : (keysOf (cancelLoop o1 o2).2).Nodup := by
    rw [keysOf_cancelLoop_snd]; exact h2
  show lookupKV (retainPos (cancelLoop o1 o2).2) t = _
  rw [lookupKV_retainPos _ hnd, lookupKV_cancelLoop_snd _ _ _ h1]
  rcases lookupKV o1 t with _ | a <;> rcases lookupKV o2 t with _ | b
  · rfl
  · by_cases h : 0 < b <;> simp [cancelFst, h]
  · rfl
  · rcases lt_trichotomy a b with h | h | h
    · simp [cancelFst, h, sub_pos.mpr h]
    · subst h
      simp [cancelFst, lt_irrefl]
    · simp [cancelFst, h, lt_asymm h]

theorem cancelFst_idem (x y : Option ℚ) :
    cancelFst (cancelFst x y) (cancelFst y x) = cancelFst x y := by
  rcases x with _ | a <;> rcases y with _ | b
  · rfl
  · rfl
  · by_cases h : 0 < a <;> simp [cancelFst, h]
  · rcases lt_trichotomy a b with h | h | h
    · simp [cancelFst, h, lt_asymm h]
    · subst h
      simp [cancelFst, lt_irrefl]
    · simp [cancelFst, h, lt_asymm h, sub_pos.mpr h]

/-- The OfferBundle invariant as the spec states it: every stored amount is
strictly positive. -/
def regAllPos (s : Registry) : Prop :=
  ∀ e ∈ s, ∀ ub ∈ e.2.items, ∀ p ∈ ub.2, 0 < p.2

/-- Weakened bundle property: every stored amount is nonnegative. -/
def stateNonneg (st : TradeState) : Prop :=
  ∀ ub ∈ st.items, ∀ p ∈ ub.2, 0 ≤ p.2

/-- Every amount of every bundle of every session is nonnegative. -/
def regNonneg (s : Registry) : Prop :=
  ∀ e ∈ s, stateNonneg e.2

/-- Every cached token amount is nonnegative (wallet balances). -/
def cacheNonneg (c : Cache) : Prop :=
  ∀ e ∈ c, ∀ p ∈ e.2, 0 ≤ p.2

theorem availableTokens_nonneg {c : Cache} (hc : cacheNonneg c) (u m : String) :
    0 ≤ availableTokens c u m := by
  rcases hcu : lookupKV c u with _ | amounts
  · simp [availableTokens, hcu]
  · rcases hm : lookupKV amounts m with _ | a
    · simp [availableTokens, hcu, hm]
    · simp only [availableTokens, hcu, hm]
      exact hc _ (mem_of_lookupKV hcu) _ (mem_of_lookupKV hm)

theorem regNonneg_setKV {s : Registry} {sid : Nat} {st : TradeState}
    (hs : regNonneg s) (hst : stateNonneg st) : regNonneg (setKV s sid st) := by
  intro e he
  rcases mem_setKV he with h | h
  · rw [h]
    exact hst
  · exact hs _ h

theorem add_client_preserves_nonneg {s : Registry} (hs : regNonneg s) (sid : Nat) :
    regNonneg (add_client s sid) := by
  rcases hlook : lookupKV s sid with _ | st
  · simp only [add_client, hlook]
    refine regNonneg_setKV hs ?_
    intro ub hub
    cases hub
  · simp only [add_client, hlook]
    exact hs

theorem add_tokens_offer_preserves_nonneg {cache : Cache} (hc : cacheNonneg cache)
    {s : Registry} (hs : regNonneg s) (sid : Nat) (u m : String) (a : ℚ) :
    regNonneg (add_tokens_offer cache s sid u m a).2 := by
  by_cases ha : a ≤ 0
  · simp only [add_tokens_offer, if_pos ha]
    exact hs
  · rcases hlook : lookupKV s sid with _ | st
    · simp only [add_tokens_offer, if_neg ha, hlook]
      exact hs
    · by_cases hph : st.status = TradeStatus.Trading ∨ st.status = TradeStatus.OneUserAccepted
      · have hav : 0 ≤ availableTokens cache u m := availableTokens_nonneg hc u m
        have hstn : stateNonneg st := hs _ (mem_of_lookupKV hlook)
        rcases hu : lookupKV st.items u with _ | bundle
        · by_cases hlen : st.items.length = 2
          · simp only [add_tokens_offer, if_neg ha, hlook, hph, if_true, hu, if_pos hlen]
            exact hs
          · simp only [add_tokens_offer, if_neg ha, hlook, hph, if_true, hu, if_neg hlen]
            refine regNonneg_setKV hs ?_
            intro ub hub
            rcases mem_setKV hub with h | h
            · rw [h]
              intro p hp
              rw [List.mem_singleton.mp hp]
              exact le_min (le_of_lt (not_le.mp ha)) hav
            · exact hstn _ h
        · have hbn : ∀ p ∈ bundle, 0 ≤ p.2 := hstn _ (mem_of_lookupKV hu)
          rcases hm : lookupKV bundle m with _ | existing
          · simp only [add_tokens_offer, if_neg ha, hlook, hph, if_true, hu, hm]
            refine regNonneg_setKV hs ?_
            intro ub hub
            rcases mem_setKV hub with h | h
            · rw [h]
              intro p hp
              rcases mem_setKV hp with h2 | h2
              · rw [h2]
                exact le_min (le_of_lt (not_le.mp ha)) hav
              · exact hbn _ h2
            · exact hstn _ h
          · simp only [add_tokens_offer, if_neg ha, hlook, hph, if_true, hu, hm]
            refine regNonneg_setKV hs ?_
            intro ub hub
            rcases mem_setKV hub with h | h
            · rw [h]
              intro p hp
              rcases mem_setKV hp with h2 | h2
              · rw [h2]
                refine le_min (add_nonneg (hbn _ (mem_of_lookupKV hm)) ?_) hav
                exact le_of_lt (not_le.mp ha)
              · exact hbn _ h2
            · exact hstn _ h
      · simp only [add_tokens_offer, if_neg ha, hlook, if_neg hph]
        exact hs

theorem withdraw_tokens_preserves_nonneg {s : Registry} (hs : regNonneg s)
    (sid : Nat) (u m : String) (a : ℚ) :
    regNonneg (withdraw_tokens s sid u m a).2 := by
  by_cases ha : a ≤ 0
  · simp only [withdraw_tokens, if_pos ha]
    exact hs
  · rcases hlook : lookupKV s sid with _ | st
    · simp only [withdraw_tokens, if_neg ha, hlook]
      exact hs
    · by_cases hph : st.status = TradeStatus.Trading ∨ st.status = TradeStatus.OneUserAccepted
      · have hstn : stateNonneg st := hs _ (mem_of_lookupKV hlook)
        rcases hu : lookupKV st.items u with _ | bundle
        · simp only [withdraw_tokens, if_neg ha, hlook, hph, if_true, hu]
          exact hs
        · have hbn : ∀ p ∈ bundle, 0 ≤ p.2 := hstn _ (mem_of_lookupKV hu)
          rcases hm : lookupKV bundle m with _ | existing
          · simp only [withdraw_tokens, if_neg ha, hlook, hph, if_true, hu, hm]
            refine regNonneg_setKV hs ?_
            intro ub hub
            rcases mem_setKV hub with h | h
            · rw [h]
              exact hbn
            · exact hstn _ h
          · have hb1 :
                lookupKV (setKV bundle m (if existing ≤ a then 0 else existing - a)) m =
                  some (if existing ≤ a then 0 else existing - a) :=
              lookupKV_setKV_self _ _ _
            have hvn : (0:ℚ) ≤ if existing ≤ a then 0 else existing - a := by
              by_cases hle : existing ≤ a
              · rw [if_pos hle]
              · rw [if_neg hle]
                exact le_of_lt (sub_pos.mpr (not_le.mp hle))
            have hb2n : ∀ p ∈ setKV bundle m (if existing ≤ a then 0 else existing - a),
                0 ≤ p.2 := by
              intro p hp
              rcases mem_setKV hp with h2 | h2
              · rw [h2]
                exact hvn
              · exact hbn _ h2
            simp only [withdraw_tokens, if_neg ha, hlook, hph, if_true, hu, hm, hb1]
            refine regNonneg_setKV hs ?_
            intro ub hub
            rcases mem_setKV hub with h | h
            · rw [h]
              intro p hp
              by_cases hz : (if existing ≤ a then (0:ℚ) else existing - a) = 0
              · rw [if_pos hz] at hp
                exact hb2n _ (mem_eraseKV hp)
              · rw [if_neg hz] at hp
                exact hb2n _ hp
            · exact hstn _ h
      · simp only [withdraw_tokens, if_neg ha, hlook, if_neg hph]
        exact hs

theorem accept_trade_preserves_nonneg {s : Registry} (hs : regNonneg s)
    (sid : Nat) (u : String) :
    regNonneg (accept_trade s sid u).2 := by
  rcases hlook : lookupKV s sid with _ | st
  · simp only [accept_trade, hlook]
    exact hs
  · by_cases hph : st.status = TradeStatus.Trading ∨ st.status = TradeStatus.OneUserAccepted
    · have hstn : stateNonneg st := hs _ (mem_of_lookupKV hlook)
      rcases hua : st.user_acted with _ | w
      · simp only [accept_trade, hlook, hph, if_true, hua]
        exact regNonneg_setKV hs hstn
      · by_cases hw : w = u
        · simp only [accept_trade, hlook, hph, if_true, hua, if_pos hw]
          exact hs
        · simp only [accept_trade, hlook, hph, if_true, hua, if_neg hw]
          exact regNonneg_setKV hs hstn
    · simp only [accept_trade, hlook, if_neg hph]
      exact hs

/-- The offers map of every session has at most two user keys. -/
def regAtMostTwo (s : Registry) : Prop :=
  ∀ e ∈ s, e.2.items.length ≤ 2

theorem regAtMostTwo_setKV {s : Registry} {sid : Nat} {st : TradeState}
    (hs : regAtMostTwo s) (hst : st.items.length ≤ 2) : regAtMostTwo (setKV s sid st) := by
  intro e he
  rcases mem_setKV he with h | h
  · rw [h]
    exact hst
  · exact hs _ h

theorem add_client_preserves_atMostTwo {s : Registry} (hs : regAtMostTwo s) (sid : Nat) :
    regAtMostTwo (add_client s sid) := by
  rcases hlook : lookupKV s sid with _ | st
  · simp only [add_client, hlook]
    refine regAtMostTwo_setKV hs ?_
    simp [default]
  · simp only [add_client, hlook]
    exact hs

theorem add_tokens_offer_preserves_atMostTwo (cache : Cache)
    {s : Registry} (hs : regAtMostTwo s) (sid : Nat) (u m : String) (a : ℚ) :
    regAtMostTwo (add_tokens_offer cache s sid u m a).2 := by
  by_cases ha : a ≤ 0
  · simp only [add_tokens_offer, if_pos ha]
    exact hs
  · rcases hlook : lookupKV s sid with _ | st
    · simp only [add_tokens_offer, if_neg ha, hlook]
      exact hs
    · by_cases hph : st.status = TradeStatus.Trading ∨ st.status = TradeStatus.OneUserAccepted
      · have hlen2 : st.items.length ≤ 2 := hs _ (mem_of_lookupKV hlook)
        rcases hu : lookupKV st.items u with _ | bundle
        · by_cases hlen : st.items.length = 2
          · simp only [add_tokens_offer, if_neg ha, hlook, hph, if_true, hu, if_pos hlen]
            exact hs
          · simp only [add_tokens_offer, if_neg ha, hlook, hph, if_true, hu, if_neg hlen]
            refine regAtMostTwo_setKV hs ?_
            have := length_setKV_of_lookupKV_none
              [(m, min a (availableTokens cache u m))] hu
            simp only [this]
            omega
        · simp only [add_tokens_offer, if_neg ha, hlook, hph, if_true, hu]
          rcases hm : lookupKV bundle m with _ | existing
          · refine regAtMostTwo_setKV hs ?_
            have := length_setKV_of_lookupKV_some
              (setKV bundle m (min a (availableTokens cache u m))) hu
            simp only [hm, this]
            exact hlen2
          · refine regAtMostTwo_setKV hs ?_
            have := length_setKV_of_lookupKV_some
              (setKV bundle m (min (existing + a) (availableTokens cache u m))) hu
            simp only [hm, this]
            exact hlen2
      · simp only [add_tokens_offer, if_neg ha, hlook, if_neg hph]
        exact hs

theorem withdraw_tokens_preserves_atMostTwo {s : Registry} (hs : regAtMostTwo s)
    (sid : Nat) (u m : String) (a : ℚ) :
    regAtMostTwo (withdraw_tokens s sid u m a).2 := by
  by_cases ha : a ≤ 0
  · simp only [withdraw_tokens, if_pos ha]
    exact hs
  · rcases hlook : lookupKV s sid with _ | st
    · simp only [withdraw_tokens, if_neg ha, hlook]
      exact hs
    · by_cases hph : st.status = TradeStatus.Trading ∨ st.status = TradeStatus.OneUserAccepted
      · have hlen2 : st.items.length ≤ 2 := hs _ (mem_of_lookupKV hlook)
        rcases hu : lookupKV st.items u with _ | bundle
        · simp only [withdraw_tokens, if_neg ha, hlook, hph, if_true, hu]
          exact hs
        · simp only [withdraw_tokens, if_neg ha, hlook, hph, if_true, hu]
          refine regAtMostTwo_setKV hs ?_
          rw [length_setKV_of_lookupKV_some _ hu]
          exact hlen2
      · simp only [withdraw_tokens, if_neg ha, hlook, if_neg hph]
        exact hs

theorem accept_trade_preserves_atMostTwo {s : Registry} (hs : regAtMostTwo s)
    (sid : Nat) (u : String) :
    regAtMostTwo (accept_trade s sid u).2 := by
  rcases hlook : lookupKV s sid with _ | st
  · simp only [accept_trade, hlook]
    exact hs
  · by_cases hph : st.status = TradeStatus.Trading ∨ st.status = TradeStatus.OneUserAccepted
    · have hlen2 : st.items.length ≤ 2 := hs _ (mem_of_lookupKV hlook)
      rcases hua : st.user_acted with _ | w
      · simp only [accept_trade, hlook, hph, if_true, hua]
        exact regAtMostTwo_setKV hs hlen2
      · by_cases hw : w = u
        · simp only [accept_trade, hlook, hph, if_true, hua, if_pos hw]
          exact hs
        · simp only [accept_trade, hlook, hph, if_true, hua, if_neg hw]
          exact regAtMostTwo_setKV hs hlen2
    · simp only [accept_trade, hlook, if_neg hph]
      exact hs

/-- The cache of scenario E1: Alice holds 0.6 of TokenA. -/
def cacheE1 : Cache := [("Alice", [("TokenA", (0.6 : ℚ))])]

/-- Registry after running scenario E1 on a fresh session: add(Alice, TokenA,
0.1001) then add(Alice, TokenA, 0.5001). -/
def regE1 : Registry :=
  (add_tokens_offer cacheE1
    (add_tokens_offer cacheE1 [(0, ⟨[], none, TradeStatus.Trading⟩)]
      0 "Alice" "TokenA" (0.1001 : ℚ)).2
    0 "Alice" "TokenA" (0.5001 : ℚ)).2

/-- C1: in a session whose status is Trading or OneUserAccepted, for a
strictly positive amount and a user already present in the offers map,
add_tokens_offer succeeds and sets the user's bundle amount for the mint to
min(existing + amount, available) when the mint was already in the bundle and
to min(amount, available) otherwise, where available is the cached amount for
(user, mint) and 0 on a cache miss; moreover scenario E1 with cache
{Alice: {TokenA: 0.6}} ends with offers[Alice][TokenA] = 0.6. -/
theorem add_tokens_offer_present_user_ceiling :
    (∀ (cache : Cache) (s : Registry) (sid : Nat) (u m : String) (a : ℚ)
      (st : TradeState) (bundle : List (String × ℚ)),
      lookupKV s sid = some st →
      (st.status = TradeStatus.Trading ∨ st.status = TradeStatus.OneUserAccepted) →
      0 < a →
      lookupKV st.items u = some bundle →
      (add_tokens_offer cache s sid u m a).1 = Except.ok () ∧
      ∃ st2 b2, lookupKV (add_tokens_offer cache s sid u m a).2 sid = some st2 ∧
        lookupKV st2.items u = some b2 ∧
        lookupKV b2 m = some (match lookupKV bundle m with
          | some existing => min (existing + a) (availableTokens cache u m)
          | none => min a (availableTokens cache u m))) ∧
    (∃ st b, lookupKV regE1 0 = some st ∧ lookupKV st.items "Alice" = some b ∧
      lookupKV b "TokenA" = some (0.6 : ℚ)) := by
  constructor
  · intro cache s sid u m a st bundle hlook hph hpos hu
    have ha : ¬ a ≤ 0 := not_le.mpr hpos
    rcases hm : lookupKV bundle m with _ | existing
    · refine ⟨?_, ⟨setKV st.items u (setKV bundle m (min a (availableTokens cache u m))),
        none, TradeStatus.Trading⟩,
        setKV bundle m (min a (availableTokens cache u m)), ?_, ?_, ?_⟩
      · simp only [add_tokens_offer, if_neg ha, hlook, hph, if_true, hu, hm]
      · simp only [add_tokens_offer, if_neg ha, hlook, hph, if_true, hu, hm]
        exact lookupKV_setKV_self _ _ _
      · exact lookupKV_setKV_self _ _ _
      · simp only [hm, lookupKV_setKV_self]
    · refine ⟨?_, ⟨setKV st.items u (setKV bundle m (min (existing + a)
        (availableTokens cache u m))), none, TradeStatus.Trading⟩,
        setKV bundle m (min (existing + a) (availableTokens cache u m)), ?_, ?_, ?_⟩
      · simp only [add_tokens_offer, if_neg ha, hlook, hph, if_true, hu, hm]
      · simp only [add_tokens_offer, if_neg ha, hlook, hph, if_true, hu, hm]
        exact lookupKV_setKV_self _ _ _
      · exact lookupKV_setKV_self _ _ _
      · simp only [hm, lookupKV_setKV_self]
  · refine ⟨⟨[("Alice", [("TokenA", (0.6 : ℚ))])], none, TradeStatus.Trading⟩,
      [("TokenA", (0.6 : ℚ))], ?_, ?_, ?_⟩
    · norm_num [regE1, cacheE1, add_tokens_offer, availableTokens, lookupKV, setKV,
        min_def]
    · norm_num [lookupKV]
    · norm_num [lookupKV]

theorem add_tokens_offer_present_user_ceiling_witness :
    lookupKV ([(0, ⟨[("Alice", [("TokenA", (1 : ℚ))])], none, TradeStatus.Trading⟩)] :
        Registry) 0 =
      some ⟨[("Alice", [("TokenA", (1 : ℚ))])], none, TradeStatus.Trading⟩ ∧
    (0 : ℚ) < 1 ∧
    (add_tokens_offer cacheE1
      [(0, ⟨[("Alice", [("TokenA", (1 : ℚ))])], none, TradeStatus.Trading⟩)]
      0 "Alice" "TokenB" 1).1 = Except.ok () := by
  refine ⟨by decide, by decide, ?_⟩
  exact (add_tokens_offer_present_user_ceiling.1 cacheE1
    [(0, ⟨[("Alice", [("TokenA", (1 : ℚ))])], none, TradeStatus.Trading⟩)]
    0 "Alice" "TokenB" 1
    ⟨[("Alice", [("TokenA", (1 : ℚ))])], none, TradeStatus.Trading⟩
    [("TokenA", (1 : ℚ))] (by decide) (Or.inl rfl) (by decide) (by decide)).1

/-- C3: for every session present in the registry, accept_trade fails with
InvalidPhase unless the status is Trading or OneUserAccepted; otherwise, when
user_acted is unset it records the caller and moves to OneUserAccepted, a
repeated accept by the recorded user changes nothing, and an accept by a
different user clears user_acted and moves to Accepted. -/
theorem accept_trade_cases :
    ∀ (s : Registry) (sid : Nat) (u : String) (st : TradeState),
      lookupKV s sid = some st →
      (¬(st.status = TradeStatus.Trading ∨ st.status = TradeStatus.OneUserAccepted) →
        accept_trade s sid u = (Except.error TradeError.InvalidPhase, s)) ∧
      ((st.status = TradeStatus.Trading ∨ st.status = TradeStatus.OneUserAccepted) →
        st.user_acted = none →
        accept_trade s sid u =
          (Except.ok (), setKV s sid ⟨st.items, some u, TradeStatus.OneUserAccepted⟩)) ∧
      ((st.status = TradeStatus.Trading ∨ st.status = TradeStatus.OneUserAccepted) →
        st.user_acted = some u →
        accept_trade s sid u = (Except.ok (), s)) ∧
      (∀ w, (st.status = TradeStatus.Trading ∨ st.status = TradeStatus.OneUserAccepted) →
        st.user_acted = some w → w ≠ u →
        accept_trade s sid u =
          (Except.ok (), setKV s sid ⟨st.items, none, TradeStatus.Accepted⟩)) := by
  intro s sid u st hlook
  refine ⟨?_, ?_, ?_, ?_⟩
  · intro hph
    simp only [accept_trade, hlook, if_neg hph]
  · intro hph hua
    simp only [accept_trade, hlook, hph, if_true, hua]
  · intro hph hua
    simp only [accept_trade, hlook, hph, if_true, hua, if_pos rfl]
  · intro w hph hua hw
    simp only [accept_trade, hlook, hph, if_true, hua, if_neg hw]

theorem accept_trade_cases_witness :
    lookupKV ([(0, ⟨[], none, TradeStatus.Trading⟩)] : Registry) 0 =
      some ⟨[], none, TradeStatus.Trading⟩ ∧
    accept_trade [(0, ⟨[], none, TradeStatus.Trading⟩)] 0 "Alice" =
      (Except.ok (), setKV [(0, ⟨[], none, TradeStatus.Trading⟩)] 0
        ⟨[], some "Alice", TradeStatus.OneUserAccepted⟩) := by
  refine ⟨by decide, ?_⟩
  exact (accept_trade_cases [(0, ⟨[], none, TradeStatus.Trading⟩)] 0 "Alice"
    ⟨[], none, TradeStatus.Trading⟩ (by decide)).2.1 (Or.inl rfl) rfl

/-- C9: withdraw_tokens on a session id absent from the registry returns
success and leaves the registry unchanged (the source if-let falls through to
Ok), while add_tokens_offer and accept_trade on the same absent session id
fail with the session-not-found error. -/
theorem absent_session_behavior :
    ∀ (cache : Cache) (s : Registry) (sid : Nat) (u m : String) (a : ℚ),
      lookupKV s sid = none → 0 < a →
      withdraw_tokens s sid u m a = (Except.ok (), s) ∧
      add_tokens_offer cache s sid u m a = (Except.error TradeError.UnknownSession, s) ∧
      accept_trade s sid u = (Except.error TradeError.UnknownSession, s) := by
  intro cache s sid u m a hlook hpos
  have ha : ¬ a ≤ 0 := not_le.mpr hpos
  refine ⟨?_, ?_, ?_⟩
  · simp only [withdraw_tokens, if_neg ha, hlook]
  · simp only [add_tokens_offer, if_neg ha, hlook]
  · simp only [accept_trade, hlook]

theorem absent_session_behavior_witness :
    lookupKV ([] : Registry) 7 = none ∧ (0 : ℚ) < 1 ∧
    withdraw_tokens [] 7 "Alice" "TokenA" 1 = (Except.ok (), []) := by
  refine ⟨rfl, by decide, ?_⟩
  exact (absent_session_behavior [] [] 7 "Alice" "TokenA" 1 rfl (by decide)).1

/-- C10: a withdrawal of a positive amount of a mint the user never offered,
in a session in phase Trading or OneUserAccepted where the user does have a
bundle, succeeds, leaves every bundle unchanged, and still resets the status
to Trading and clears user_acted (so it reverts an acceptance). -/
theorem withdraw_missing_mint_reverts_only :
    ∀ (s : Registry) (sid : Nat) (u m : String) (a : ℚ) (st : TradeState)
      (bundle : List (String × ℚ)),
      lookupKV s sid = some st →
      (st.status = TradeStatus.Trading ∨ st.status = TradeStatus.OneUserAccepted) →
      0 < a →
      lookupKV st.items u = some bundle →
      lookupKV bundle m = none →
      withdraw_tokens s sid u m a =
        (Except.ok (), setKV s sid ⟨st.items, none, TradeStatus.Trading⟩) := by
  intro s sid u m a st bundle hlook hph hpos hu hm
  have ha : ¬ a ≤ 0 := not_le.mpr hpos
  simp only [withdraw_tokens, if_neg ha, hlook, hph, if_true, hu, hm]
  rw [setKV_lookup_self hu]

theorem withdraw_missing_mint_reverts_only_witness :
    lookupKV ([(0, ⟨[("Alice", [("TokenA", (1 : ℚ))])], some "Alice",
        TradeStatus.OneUserAccepted⟩)] : Registry) 0 =
      some ⟨[("Alice", [("TokenA", (1 : ℚ))])], some "Alice",
        TradeStatus.OneUserAccepted⟩ ∧
    (0 : ℚ) < 1 ∧
    withdraw_tokens
        [(0, ⟨[("Alice", [("TokenA", (1 : ℚ))])], some "Alice",
          TradeStatus.OneUserAccepted⟩)] 0 "Alice" "TokenB" 1 =
      (Except.ok (), setKV
        [(0, ⟨[("Alice", [("TokenA", (1 : ℚ))])], some "Alice",
          TradeStatus.OneUserAccepted⟩)] 0
        ⟨[("Alice", [("TokenA", (1 : ℚ))])], none, TradeStatus.Trading⟩) := by
  refine ⟨by decide, by decide, ?_⟩
  exact withdraw_missing_mint_reverts_only
    [(0, ⟨[("Alice", [("TokenA", (1 : ℚ))])], some "Alice",
      TradeStatus.OneUserAccepted⟩)] 0 "Alice" "TokenB" 1
    ⟨[("Alice", [("TokenA", (1 : ℚ))])], some "Alice", TradeStatus.OneUserAccepted⟩
    [("TokenA", (1 : ℚ))] (by decide) (Or.inr rfl) (by decide) (by decide) (by decide)

/-- C4 (amended): a successful add_tokens_offer or withdraw_tokens with a
strictly positive amount leaves the session stored under the id with status
Trading and user_acted cleared; a call with amount at most 0, and a withdrawal
addressed to an absent session id, succeed with the whole registry unchanged
(so status and user_acted keep their previous values). -/
theorem mutation_success_resets_status :
    (∀ (cache : Cache) (s : Registry) (sid : Nat) (u m : String) (a : ℚ)
      (st : TradeState),
      0 < a →
      (add_tokens_offer cache s sid u m a).1 = Except.ok () →
      lookupKV (add_tokens_offer cache s sid u m a).2 sid = some st →
      st.status = TradeStatus.Trading ∧ st.user_acted = none) ∧
    (∀ (s : Registry) (sid : Nat) (u m : String) (a : ℚ) (st : TradeState),
      0 < a →
      (withdraw_tokens s sid u m a).1 = Except.ok () →
      lookupKV (withdraw_tokens s sid u m a).2 sid = some st →
      st.status = TradeStatus.Trading ∧ st.user_acted = none) ∧
    (∀ (cache : Cache) (s : Registry) (sid : Nat) (u m : String) (a : ℚ),
      a ≤ 0 →
      add_tokens_offer cache s sid u m a = (Except.ok (), s) ∧
      withdraw_tokens s sid u m a = (Except.ok (), s)) ∧
    (∀ (s : Registry) (sid : Nat) (u m : String) (a : ℚ),
      lookupKV s sid = none → withdraw_tokens s sid u m a = (Except.ok (), s)) := by
  refine ⟨?_, ?_, ?_, ?_⟩
  · intro cache s sid u m a st hpos hok hst
    have ha : ¬ a ≤ 0 := not_le.mpr hpos
    rcases hlook : lookupKV s sid with _ | st0
    · simp only [add_tokens_offer, if_neg ha, hlook] at hok
      exact Except.noConfusion hok
    · by_cases hph : st0.status = TradeStatus.Trading ∨ st0.status = TradeStatus.OneUserAccepted
      · rcases hu : lookupKV st0.items u with _ | bundle
        · by_cases hlen : st0.items.length = 2
          · simp only [add_tokens_offer, if_neg ha, hlook, hph, if_true, hu,
              if_pos hlen] at hok
            exact Except.noConfusion hok
          · simp only [add_tokens_offer, if_neg ha, hlook, hph, if_true, hu,
              if_neg hlen] at hst
            rw [lookupKV_setKV_self, Option.some.injEq] at hst
            subst hst
            exact ⟨rfl, rfl⟩
        · simp only [add_tokens_offer, if_neg ha, hlook, hph, if_true, hu] at hst
          rw [lookupKV_setKV_self, Option.some.injEq] at hst
          subst hst
          exact ⟨rfl, rfl⟩
      · simp only [add_tokens_offer, if_neg ha, hlook, if_neg hph] at hok
        exact Except.noConfusion hok
  · intro s sid u m a st hpos hok hst
    have ha : ¬ a ≤ 0 := not_le.mpr hpos
    rcases hlook : lookupKV s sid with _ | st0
    · simp only [withdraw_tokens, if_neg ha, hlook] at hst
      exact Option.noConfusion hst
    · by_cases hph : st0.status = TradeStatus.Trading ∨ st0.status = TradeStatus.OneUserAccepted
      · rcases hu : lookupKV st0.items u with _ | bundle
        · simp only [withdraw_tokens, if_neg ha, hlook, hph, if_true, hu] at hok
          exact Except.noConfusion hok
        · simp only [withdraw_tokens, if_neg ha, hlook, hph, if_true, hu] at hst
          rw [lookupKV_setKV_self, Option.some.injEq] at hst
          subst hst
          exact ⟨rfl, rfl⟩
      · simp only [withdraw_tokens, if_neg ha, hlook, if_neg hph] at hok
        exact Except.noConfusion hok
  · intro cache s sid u m a hle
    exact ⟨by simp only [add_tokens_offer, if_pos hle],
      by simp only [withdraw_tokens, if_pos hle]⟩
  · intro s sid u m a hlook
    by_cases ha : a ≤ 0
    · simp only [withdraw_tokens, if_pos ha]
    · simp only [withdraw_tokens, if_neg ha, hlook]

theorem mutation_success_resets_status_witness :
    (0 : ℚ) ≤ 0 ∧
    add_tokens_offer [] [(0, ⟨[], some "Alice", TradeStatus.OneUserAccepted⟩)]
        0 "Bob" "TokenA" 0 =
      (Except.ok (), [(0, ⟨[], some "Alice", TradeStatus.OneUserAccepted⟩)]) ∧
    withdraw_tokens [(0, ⟨[], some "Alice", TradeStatus.OneUserAccepted⟩)]
        0 "Bob" "TokenA" 0 =
      (Except.ok (), [(0, ⟨[], some "Alice", TradeStatus.OneUserAccepted⟩)]) := by
  refine ⟨by decide, ?_, ?_⟩
  · exact (mutation_success_resets_status.2.2.1 []
      [(0, ⟨[], some "Alice", TradeStatus.OneUserAccepted⟩)] 0 "Bob" "TokenA" 0
      (by decide)).1
  · exact (mutation_success_resets_status.2.2.1 []
      [(0, ⟨[], some "Alice", TradeStatus.OneUserAccepted⟩)] 0 "Bob" "TokenA" 0
      (by decide)).2

/-- C4 counterexample: the claim as stated also covers successful calls with
amount at most 0; a successful add_tokens_offer with amount 0 on a session in
status OneUserAccepted leaves status OneUserAccepted and user_acted set, so
the claim is false. -/
theorem mutation_success_resets_status_counterexample :
    ¬ (∀ (cache : Cache) (s : Registry) (sid : Nat) (u m : String) (a : ℚ)
        (st : TradeState),
        (add_tokens_offer cache s sid u m a).1 = Except.ok () →
        lookupKV (add_tokens_offer cache s sid u m a).2 sid = some st →
        st.status = TradeStatus.Trading ∧ st.user_acted = none) := by
  intro h
  have h2 := h [] [(0, ⟨[], some "Alice", TradeStatus.OneUserAccepted⟩)] 0 "Bob" "TokenA" 0
    ⟨[], some "Alice", TradeStatus.OneUserAccepted⟩ (by decide) (by decide)
  exact absurd h2.1 (by decide)

/-- C6: each mutating engine operation returns success or an error kind, and
whenever it returns an error the registry, hence the session state, is exactly
what it was before the call. -/
theorem error_leaves_state_unchanged :
    (∀ (cache : Cache) (s : Registry) (sid : Nat) (u m : String) (a : ℚ),
      ((add_tokens_offer cache s sid u m a).1 = Except.ok () ∨
        ∃ e, (add_tokens_offer cache s sid u m a).1 = Except.error e) ∧
      (∀ e, (add_tokens_offer cache s sid u m a).1 = Except.error e →
        (add_tokens_offer cache s sid u m a).2 = s)) ∧
    (∀ (s : Registry) (sid : Nat) (u m : String) (a : ℚ),
      ((withdraw_tokens s sid u m a).1 = Except.ok () ∨
        ∃ e, (withdraw_tokens s sid u m a).1 = Except.error e) ∧
      (∀ e, (withdraw_tokens s sid u m a).1 = Except.error e →
        (withdraw_tokens s sid u m a).2 = s)) ∧
    (∀ (s : Registry) (sid : Nat) (u : String),
      ((accept_trade s sid u).1 = Except.ok () ∨
        ∃ e, (accept_trade s sid u).1 = Except.error e) ∧
      (∀ e, (accept_trade s sid u).1 = Except.error e →
        (accept_trade s sid u).2 = s)) := by
  refine ⟨?_, ?_, ?_⟩
  · intro cache s sid u m a
    constructor
    · rcases (add_tokens_offer cache s sid u m a).1 with e | v
      · exact Or.inr ⟨e, rfl⟩
      · obtain ⟨⟩ := v
        exact Or.inl rfl
    · intro e he
      by_cases ha : a ≤ 0
      · simp only [add_tokens_offer, if_pos ha] at he
        exact Except.noConfusion he
      · rcases hlook : lookupKV s sid with _ | st
        · simp only [add_tokens_offer, if_neg ha, hlook]
        · by_cases hph : st.status = TradeStatus.Trading ∨
              st.status = TradeStatus.OneUserAccepted
          · rcases hu : lookupKV st.items u with _ | bundle
            · by_cases hlen : st.items.length = 2
              · simp only [add_tokens_offer, if_neg ha, hlook, hph, if_true, hu,
                  if_pos hlen]
              · simp only [add_tokens_offer, if_neg ha, hlook, hph, if_true, hu,
                  if_neg hlen] at he
                exact Except.noConfusion he
            · simp only [add_tokens_offer, if_neg ha, hlook, hph, if_true, hu] at he
              exact Except.noConfusion he
          · simp only [add_tokens_offer, if_neg ha, hlook, if_neg hph]
  · intro s sid u m a
    constructor
    · rcases (withdraw_tokens s sid u m a).1 with e | v
      · exact Or.inr ⟨e, rfl⟩
      · obtain ⟨⟩ := v
        exact Or.inl rfl
    · intro e he
      by_cases ha : a ≤ 0
      · simp only [withdraw_tokens, if_pos ha] at he
        exact Except.noConfusion he
      · rcases hlook : lookupKV s sid with _ | st
        · simp only [withdraw_tokens, if_neg ha, hlook] at he
          exact Except.noConfusion he
        · by_cases hph : st.status = TradeStatus.Trading ∨
              st.status = TradeStatus.OneUserAccepted
          · rcases hu : lookupKV st.items u with _ | bundle
            · simp only [withdraw_tokens, if_neg ha, hlook, hph, if_true, hu]
            · simp only [withdraw_tokens, if_neg ha, hlook, hph, if_true, hu] at he
              exact Except.noConfusion he
          · simp only [withdraw_tokens, if_neg ha, hlook, if_neg hph]
  · intro s sid u
    constructor
    · rcases (accept_trade s sid u).1 with e | v
      · exact Or.inr ⟨e, rfl⟩
      · obtain ⟨⟩ := v
        exact Or.inl rfl
    · intro e he
      rcases hlook : lookupKV s sid with _ | st
      · simp only [accept_trade, hlook]
      · by_cases hph : st.status = TradeStatus.Trading ∨
            st.status = TradeStatus.OneUserAccepted
        · rcases hua : st.user_acted with _ | w
          · simp only [accept_trade, hlook, hph, if_true, hua] at he
            exact Except.noConfusion he
          · by_cases hw : w = u
            · simp only [accept_trade, hlook, hph, if_true, hua, if_pos hw] at he
              exact Except.noConfusion he
            · simp only [accept_trade, hlook, hph, if_true, hua, if_neg hw] at he
              exact Except.noConfusion he
        · simp only [accept_trade, hlook, if_neg hph]

theorem error_leaves_state_unchanged_witness :
    (accept_trade [] 0 "Alice").1 = Except.error TradeError.UnknownSession ∧
    (accept_trade [] 0 "Alice").2 = [] := by
  refine ⟨by decide, ?_⟩
  exact (error_leaves_state_unchanged.2.2 [] 0 "Alice").2
    TradeError.UnknownSession (by decide)

/-- C2 (amended): in every state reachable from a fresh registry, provided
every cached token amount is nonnegative, every amount stored in every bundle
is nonnegative; a zero amount (and its mint key) can appear, namely when
add_tokens_offer runs while the available ceiling for the user and mint is 0,
so strict positivity does not hold. -/
theorem reachable_amounts_nonneg :
    ∀ (cache : Cache), cacheNonneg cache →
      ∀ (s : Registry), Reachable cache s → regNonneg s := by
  intro cache hc s hr
  induction hr with
  | refl =>
    intro e he
    cases he
  | tail hsteps hstep ih =>
    cases hstep with
    | client sid => exact add_client_preserves_nonneg ih sid
    | offer sid u m a => exact add_tokens_offer_preserves_nonneg hc ih sid u m a
    | withdraw sid u m a => exact withdraw_tokens_preserves_nonneg ih sid u m a
    | accept sid u => exact accept_trade_preserves_nonneg ih sid u

theorem reachable_amounts_nonneg_witness :
    cacheNonneg [] ∧ regNonneg [(0, ⟨[], none, TradeStatus.Trading⟩)] := by
  refine ⟨fun e he => absurd he (List.not_mem_nil e), ?_⟩
  refine reachable_amounts_nonneg [] (fun e he => absurd he (List.not_mem_nil e))
    [(0, ⟨[], none, TradeStatus.Trading⟩)] ?_
  exact Relation.ReflTransGen.single (@Step.client ([] : Cache) [] 0)

/-- C2 counterexample: with the empty cache (so the available ceiling is 0),
add_client then add_tokens_offer(Alice, TokenA, 1) reaches a state whose
bundle holds TokenA with amount 0, so strict positivity of all stored amounts
fails on a reachable state. -/
theorem reachable_amounts_pos_counterexample :
    ¬ (∀ (cache : Cache) (s : Registry), Reachable cache s → regAllPos s) := by
  intro h
  have hstep1 : Step ([] : Cache) []
      [(0, (⟨[], none, TradeStatus.Trading⟩ : TradeState))] :=
    @Step.client ([] : Cache) [] 0
  have hstep2 : Step ([] : Cache) [(0, ⟨[], none, TradeStatus.Trading⟩)]
      [(0, ⟨[("Alice", [("TokenA", (0 : ℚ))])], none, TradeStatus.Trading⟩)] := by
    have h2 := @Step.offer ([] : Cache)
      [(0, ⟨[], none, TradeStatus.Trading⟩)] 0 "Alice" "TokenA" 1
    have he : (add_tokens_offer [] [(0, ⟨[], none, TradeStatus.Trading⟩)]
        0 "Alice" "TokenA" 1).2 =
        [(0, ⟨[("Alice", [("TokenA", (0 : ℚ))])], none, TradeStatus.Trading⟩)] := by
      decide
    rwa [he] at h2
  have hr : Reachable ([] : Cache)
      [(0, ⟨[("Alice", [("TokenA", (0 : ℚ))])], none, TradeStatus.Trading⟩)] :=
    Relation.ReflTransGen.tail (Relation.ReflTransGen.single hstep1) hstep2
  have hp := h [] _ hr
  have hz := hp _ (List.mem_singleton.mpr rfl) _ (List.mem_singleton.mpr rfl)
    ("TokenA", (0 : ℚ)) (List.mem_singleton.mpr rfl)
  exact absurd hz (by decide)

/-- The session of scenario E2: Alice and Bob each already offer a bundle. -/
def regE2 : Registry :=
  [(0, ⟨[("Alice", [("TokenA", (1 : ℚ))]), ("Bob", [("TokenB", (2 : ℚ))])], none,
    TradeStatus.Trading⟩)]

/-- C5: in every reachable state every session has at most two users in its
offers map; add_tokens_offer for a user not in the offers map of a session in
phase Trading or OneUserAccepted with a positive amount fails with
TooManyParties when two users are present; and in scenario E2, after Alice and
Bob have bundles, an add for Charlie fails with TooManyParties. -/
theorem two_party_invariant :
    (∀ (cache : Cache) (s : Registry), Reachable cache s → regAtMostTwo s) ∧
    (∀ (cache : Cache) (s : Registry) (sid : Nat) (u m : String) (a : ℚ)
      (st : TradeState),
      lookupKV s sid = some st →
      (st.status = TradeStatus.Trading ∨ st.status = TradeStatus.OneUserAccepted) →
      0 < a →
      lookupKV st.items u = none →
      st.items.length = 2 →
      add_tokens_offer cache s sid u m a = (Except.error TradeError.TooManyParties, s)) ∧
    (add_tokens_offer [] regE2 0 "Charlie" "TokenC" 5 =
      (Except.error TradeError.TooManyParties, regE2)) := by
  refine ⟨?_, ?_, ?_⟩
  · intro cache s hr
    induction hr with
    | refl =>
      intro e he
      cases he
    | tail hsteps hstep ih =>
      cases hstep with
      | client sid => exact add_client_preserves_atMostTwo ih sid
      | offer sid u m a => exact add_tokens_offer_preserves_atMostTwo cache ih sid u m a
      | withdraw sid u m a => exact withdraw_tokens_preserves_atMostTwo ih sid u m a
      | accept sid u => exact accept_trade_preserves_atMostTwo ih sid u
  · intro cache s sid u m a st hlook hph hpos hu hlen
    have ha : ¬ a ≤ 0 := not_le.mpr hpos
    simp only [add_tokens_offer, if_neg ha, hlook, hph, if_true, hu, if_pos hlen]
  · decide

theorem two_party_invariant_witness :
    regAtMostTwo [] ∧
    add_tokens_offer [] regE2 0 "Charlie" "TokenC" 5 =
      (Except.error TradeError.TooManyParties, regE2) :=
  ⟨two_party_invariant.1 [] [] Relation.ReflTransGen.refl, two_party_invariant.2.2⟩

/-- C7: cancel_out_trade_tokens is idempotent on its output (feeding the
returned residue pair back returns the same pair) and commutative in its two
inputs up to swapping the returned pair; maps are compared extensionally
through lookup, the way HashMap equality compares them, and the HashMap
inputs are represented by association lists with no duplicate keys. -/
theorem cancel_out_trade_tokens_idem_comm :
    ∀ (o1 o2 : List (String × ℚ)),
      (keysOf o1).Nodup → (keysOf o2).Nodup →
      (∀ t,
        lookupKV (cancel_out_trade_tokens (cancel_out_trade_tokens o1 o2).1
          (cancel_out_trade_tokens o1 o2).2).1 t =
          lookupKV (cancel_out_trade_tokens o1 o2).1 t ∧
        lookupKV (cancel_out_trade_tokens (cancel_out_trade_tokens o1 o2).1
          (cancel_out_trade_tokens o1 o2).2).2 t =
          lookupKV (cancel_out_trade_tokens o1 o2).2 t) ∧
      (∀ t,
        lookupKV (cancel_out_trade_tokens o2 o1).1 t =
          lookupKV (cancel_out_trade_tokens o1 o2).2 t ∧
        lookupKV (cancel_out_trade_tokens o2 o1).2 t =
          lookupKV (cancel_out_trade_tokens o1 o2).1 t) := by
  intro o1 o2 h1 h2
  have hf1 : (keysOf (cancel_out_trade_tokens o1 o2).1).Nodup := nodup_keys_cancel_fst h1
  have hs1 : (keysOf (cancel_out_trade_tokens o1 o2).2).Nodup := nodup_keys_cancel_snd h2
  constructor
  · intro t
    constructor
    · rw [lookupKV_cancel_fst _ _ hf1 t, lookupKV_cancel_fst _ _ h1 t,
        lookupKV_cancel_snd _ _ h1 h2 t]
      exact cancelFst_idem _ _
    · rw [lookupKV_cancel_snd _ _ hf1 hs1 t, lookupKV_cancel_snd _ _ h1 h2 t,
        lookupKV_cancel_fst _ _ h1 t]
      exact cancelFst_idem _ _
  · intro t
    constructor
    · rw [lookupKV_cancel_fst _ _ h2 t, lookupKV_cancel_snd _ _ h1 h2 t]
    · rw [lookupKV_cancel_snd _ _ h2 h1 t, lookupKV_cancel_fst _ _ h1 t]

/-- First offer map used to witness the cancellation properties. -/
def o1w : List (String × ℚ) := [("t1", 10), ("t2", 4)]

/-- Second offer map used to witness the cancellation properties. -/
def o2w : List (String × ℚ) := [("t2", 1)]

theorem cancel_out_trade_tokens_idem_comm_witness :
    (keysOf o1w).Nodup ∧ (keysOf o2w).Nodup ∧
    lookupKV (cancel_out_trade_tokens o2w o1w).1 "t2" =
      lookupKV (cancel_out_trade_tokens o1w o2w).2 "t2" := by
  refine ⟨by decide, by decide, ?_⟩
  exact ((cancel_out_trade_tokens_idem_comm o1w o2w (by decide) (by decide)).2 "t2").1

theorem buildEntries_error_eq (parsePk : String → Option Nat) (ata : Nat → Nat → Nat)
    (sender receiver : String) :
    ∀ (l : List (String × ℚ)) (e : TxError),
      buildEntries parsePk ata sender receiver l = Except.error e →
      e = TxError.BadAddress := by
  intro l
  induction l with
  | nil =>
    intro e h
    exact Except.noConfusion h
  | cons p rest ih =>
    intro e h
    obtain ⟨token, amount⟩ := p
    rcases hs1 : parsePk sender with _ | us
    · simp only [buildEntries, hs1] at h
      exact (Except.error.inj h).symm
    · rcases hs2 : parsePk receiver with _ | ur
      · simp only [buildEntries, hs1, hs2] at h
        exact (Except.error.inj h).symm
      · rcases hs3 : parsePk token with _ | tk
        · simp only [buildEntries, hs1, hs2, hs3] at h
          exact (Except.error.inj h).symm
        · rcases hr : buildEntries parsePk ata sender receiver rest with e2 | es
          · simp only [buildEntries, hs1, hs2, hs3, hr] at h
            rw [ih e2 hr] at h
            exact (Except.error.inj h).symm
          · simp only [buildEntries, hs1, hs2, hs3, hr] at h
            exact Except.noConfusion h

theorem buildEntries_ok (parsePk : String → Option Nat) (ata : Nat → Nat → Nat)
    (sender receiver : String) (hp : ∀ x, (parsePk x).isSome) :
    ∀ (l : List (String × ℚ)),
      ∃ es, buildEntries parsePk ata sender receiver l = Except.ok es := by
  intro l
  induction l with
  | nil => exact ⟨[], rfl⟩
  | cons p rest ih =>
    obtain ⟨token, amount⟩ := p
    obtain ⟨es, hes⟩ := ih
    obtain ⟨us, hus⟩ := Option.isSome_iff_exists.mp (hp sender)
    obtain ⟨ur, hur⟩ := Option.isSome_iff_exists.mp (hp receiver)
    obtain ⟨tk, htk⟩ := Option.isSome_iff_exists.mp (hp token)
    refine ⟨(ata us tk, ata ur tk, tk, amount) :: es, ?_⟩
    simp only [buildEntries, hus, hur, htk, hes]

/-- C8: create_transaction fails with InvalidParties exactly when the bundle
does not hold exactly two users; with exactly two users it fails with
EmptyTrade when both residues of the mutual cancellation are empty; and in the
remaining two-user cases it returns an unsigned transaction provided every
address parses and the blockhash fetch succeeds. -/
theorem create_transaction_error_classification :
    ∀ (parsePk : String → Option Nat) (ata : Nat → Nat → Nat) (programId : Nat)
      (blockhash : Option Nat) (items : List (String × List (String × ℚ))),
      (create_transaction parsePk ata programId blockhash items =
          Except.error TxError.InvalidParties ↔ items.length ≠ 2) ∧
      (∀ u1 o1 u2 o2, items = [(u1, o1), (u2, o2)] →
        (cancel_out_trade_tokens o1 o2).1 = [] →
        (cancel_out_trade_tokens o1 o2).2 = [] →
        create_transaction parsePk ata programId blockhash items =
          Except.error TxError.EmptyTrade) ∧
      (∀ u1 o1 u2 o2 h, items = [(u1, o1), (u2, o2)] →
        ¬((cancel_out_trade_tokens o1 o2).1 = [] ∧ (cancel_out_trade_tokens o1 o2).2 = []) →
        (∀ x, (parsePk x).isSome) →
        blockhash = some h →
        ∃ tx, create_transaction parsePk ata programId blockhash items =
          Except.ok tx) := by
  intro parsePk ata programId blockhash items
  refine ⟨⟨?_, ?_⟩, ?_, ?_⟩
  · intro heq
    by_contra hlen
    rcases items with _ | ⟨⟨u1, o1⟩, items2⟩
    · simp at hlen
    · rcases items2 with _ | ⟨⟨u2, o2⟩, rest⟩
      · simp at hlen
      · have hrest : rest = [] := by
          rw [List.length_cons, List.length_cons] at hlen
          exact List.length_eq_zero.mp (by omega)
        subst hrest
        have hcond : ¬(([(u1, o1), (u2, o2)] :
            List (String × List (String × ℚ))).length ≠ 2) := by simp
        by_cases hemp : ((cancel_out_trade_tokens o1 o2).1.isEmpty ∧
            (cancel_out_trade_tokens o1 o2).2.isEmpty)
        · simp only [create_transaction, if_neg hcond, if_pos hemp] at heq
          exact TxError.noConfusion (Except.error.inj heq)
        · rcases hb1 : buildEntries parsePk ata u1 u2
              (cancel_out_trade_tokens o1 o2).1 with e1 | es1
          · simp only [create_transaction, if_neg hcond, if_neg hemp, hb1] at heq
            have := buildEntries_error_eq parsePk ata u1 u2 _ e1 hb1
            rw [this] at heq
            exact TxError.noConfusion (Except.error.inj heq)
          · rcases hb2 : buildEntries parsePk ata u2 u1
                (cancel_out_trade_tokens o1 o2).2 with e2 | es2
            · simp only [create_transaction, if_neg hcond, if_neg hemp, hb1, hb2] at heq
              have := buildEntries_error_eq parsePk ata u2 u1 _ e2 hb2
              rw [this] at heq
              exact TxError.noConfusion (Except.error.inj heq)
            · rcases hp1 : parsePk u1 with _ | v1
              · simp only [create_transaction, if_neg hcond, if_neg hemp, hb1, hb2,
                  hp1] at heq
                exact TxError.noConfusion (Except.error.inj heq)
              · rcases hp2 : parsePk u2 with _ | v2
                · simp only [create_transaction, if_neg hcond, if_neg hemp, hb1, hb2,
                    hp1, hp2] at heq
                  exact TxError.noConfusion (Except.error.inj heq)
                · rcases hbh : blockhash with _ | hsh
                  · simp only [create_transaction, if_neg hcond, if_neg hemp, hb1, hb2,
                      hp1, hp2, hbh] at heq
                    exact TxError.noConfusion (Except.error.inj heq)
                  · simp only [create_transaction, if_neg hcond, if_neg hemp, hb1, hb2,
                      hp1, hp2, hbh] at heq
                    exact Except.noConfusion heq
  · intro hlen
    simp only [create_transaction, if_pos hlen]
  · intro u1 o1 u2 o2 hitems hr1 hr2
    subst hitems
    have hcond : ¬(([(u1, o1), (u2, o2)] :
        List (String × List (String × ℚ))).length ≠ 2) := by simp
    have hemp : ((cancel_out_trade_tokens o1 o2).1.isEmpty ∧
        (cancel_out_trade_tokens o1 o2).2.isEmpty) := by
      rw [hr1, hr2]
      exact ⟨rfl, rfl⟩
    simp only [create_transaction, if_neg hcond, if_pos hemp]
  · intro u1 o1 u2 o2 h hitems hne hp hbh
    subst hitems
    subst hbh
    have hcond : ¬(([(u1, o1), (u2, o2)] :
        List (String × List (String × ℚ))).length ≠ 2) := by simp
    have hemp : ¬((cancel_out_trade_tokens o1 o2).1.isEmpty ∧
        (cancel_out_trade_tokens o1 o2).2.isEmpty) := by
      intro hcontra
      exact hne ⟨List.isEmpty_iff.mp hcontra.1, List.isEmpty_iff.mp hcontra.2⟩
    obtain ⟨es1, hes1⟩ := buildEntries_ok parsePk ata u1 u2 hp
      (cancel_out_trade_tokens o1 o2).1
    obtain ⟨es2, hes2⟩ := buildEntries_ok parsePk ata u2 u1 hp
      (cancel_out_trade_tokens o1 o2).2
    obtain ⟨v1, hv1⟩ := Option.isSome_iff_exists.mp (hp u1)
    obtain ⟨v2, hv2⟩ := Option.isSome_iff_exists.mp (hp u2)
    refine ⟨⟨programId,
      [⟨v1, true, true⟩, ⟨v2, true, true⟩] ++
        ((es1 ++ es2).map (fun e => e.2.2.1)).map (fun k => ⟨k, false, false⟩) ++
        (((es1 ++ es2).map (fun e => e.1)) ++
          ((es1 ++ es2).map (fun e => e.2.1))).map (fun k => ⟨k, false, true⟩),
      (es1 ++ es2).map (fun e => e.2.2.2), v1, h⟩, ?_⟩
    simp only [create_transaction, if_neg hcond, if_neg hemp, hes1, hes2, hv1, hv2]

theorem create_transaction_error_classification_witness :
    create_transaction (fun _ => some 0) (fun _ _ => 0) 0 (some 0)
      [("A", [("T", (1 : ℚ))]), ("B", [("T", (1 : ℚ))])] =
      Except.error TxError.EmptyTrade := by
  exact (create_transaction_error_classification (fun _ => some 0) (fun _ _ => 0) 0
    (some 0) [("A", [("T", (1 : ℚ))]), ("B", [("T", (1 : ℚ))])]).2.1
    "A" [("T", (1 : ℚ))] "B" [("T", (1 : ℚ))] rfl (by decide) (by decide)
